import Mathlib

/-!
Verification of the mask change-detection and point-sampling pipeline of
`src/app.py` (Trash Change Dashboard).  The program's 2D numpy arrays are
embedded as lists of lists; boolean masks as `List (List Bool)`, numeric
raster masks as `List (List Int)`.  The affine pixel-to-geographic
transform (the external `rasterio.transform.xy`) is kept abstract as a
function from (row, col) to an (x, y) pair.
-/

set_option autoImplicit false

namespace TrashDash

/-- Value of a numeric pixel array at (r, c); out-of-range reads default
    to 0 (never taken for the rectangular in-range arrays of the code). -/
def getV (a : List (List Int)) (r c : Nat) : Int :=
  (a.getD r []).getD c 0

/-- Value of a boolean mask at (r, c); out-of-range reads default to
    false. -/
def getPix (m : List (List Bool)) (r c : Nat) : Bool :=
  (m.getD r []).getD c false

/-- Number of columns of a 2D array (`mask.shape[1]` for the rectangular
    numpy arrays of the code). -/
def ncols (m : List (List Bool)) : Nat :=
  (m.headD []).length

/-- `a.shape` of a 2D numpy array: (rows, cols). -/
def npShape (a : List (List Int)) : Nat × Nat :=
  (a.length, (a.headD []).length)

/-- Equal-shape predicate for two 2D numeric arrays (numpy broadcast-free
    elementwise operation precondition). -/
def EqShape (a b : List (List Int)) : Prop :=
  a.length = b.length ∧ ∀ i, (a.getD i []).length = (b.getD i []).length

/-- `compute_changes(a, b)` of app.py line 107-108:
    `return (a==0) & (b>0), (a>0) & (b==0)` -/
def compute_changes (a b : List (List Int)) :
    List (List Bool) × List (List Bool) :=
  ( List.zipWith (fun ra rb =>
      List.zipWith (fun x y => decide (x = 0) && decide (0 < y)) ra rb) a b,
    List.zipWith (fun ra rb =>
      List.zipWith (fun x y => decide (0 < x) && decide (y = 0)) ra rb) a b )

/-- Pixelwise conjunction of two boolean masks (numpy `&`). -/
def maskAnd (m1 m2 : List (List Bool)) : List (List Bool) :=
  List.zipWith (fun r1 r2 => List.zipWith (fun x y => x && y) r1 r2) m1 m2

/-- Python `range(0, n, step)` for `step ≥ 1`: the indices below `n`
    divisible by `step`, ascending. -/
def rangeStep (n step : Nat) : List Nat :=
  (List.range n).filter (fun i => i % step = 0)

/-- The point appended for a true pixel (r, c): `x, y = xy(transform, r, c)`
    then `pts.append((y, x))` (app.py lines 76-77).  The transform is the
    abstract function `xy`. -/
def samplePoint {α : Type} (xy : Nat → Nat → α × α) (r c : Nat) : α × α :=
  ((xy r c).2, (xy r c).1)

/-- The inner column loop of `mask_to_points` (app.py lines 74-80) over a
    list of remaining column indices, carrying the accumulated points and
    running count; the boolean result is true when `count >= max_points`
    triggered the early `return pts`. -/
def scanCols {α : Type} (mask : List (List Bool)) (xy : Nat → Nat → α × α)
    (maxPoints r : Nat) :
    List Nat → List (α × α) → Nat → List (α × α) × Nat × Bool
  | [], pts, count => (pts, count, false)
  | c :: cs, pts, count =>
    if getPix mask r c then
      let pts' := pts ++ [samplePoint xy r c]
      let count' := count + 1
      if maxPoints ≤ count' then (pts', count', true)
      else scanCols mask xy maxPoints r cs pts' count'
    else scanCols mask xy maxPoints r cs pts count

/-- The outer row loop of `mask_to_points` (app.py lines 70-81), with the
    row-level pre-check `if not mask[r, ::step].any(): continue`. -/
def scanRows {α : Type} (mask : List (List Bool)) (xy : Nat → Nat → α × α)
    (step maxPoints : Nat) :
    List Nat → List (α × α) → Nat → List (α × α)
  | [], pts, _ => pts
  | r :: rs, pts, count =>
    if (rangeStep (ncols mask) step).any (fun c => getPix mask r c) then
      match scanCols mask xy maxPoints r (rangeStep (ncols mask) step) pts count with
      | (pts', _, true) => pts'
      | (pts', count', false) => scanRows mask xy step maxPoints rs pts' count'
    else scanRows mask xy step maxPoints rs pts count

/-- `mask_to_points(mask, transform, step, max_points)` of app.py
    lines 66-81. -/
def mask_to_points {α : Type} (mask : List (List Bool))
    (xy : Nat → Nat → α × α) (step maxPoints : Nat) : List (α × α) :=
  scanRows mask xy step maxPoints (rangeStep mask.length step) [] 0

/-- The outer row loop WITHOUT the row-level pre-check: reference variant
    for the refinement claim that the pre-check is a pure optimization. -/
def scanRowsNC {α : Type} (mask : List (List Bool)) (xy : Nat → Nat → α × α)
    (step maxPoints : Nat) :
    List Nat → List (α × α) → Nat → List (α × α)
  | [], pts, _ => pts
  | r :: rs, pts, count =>
    match scanCols mask xy maxPoints r (rangeStep (ncols mask) step) pts count with
    | (pts', _, true) => pts'
    | (pts', count', false) => scanRowsNC mask xy step maxPoints rs pts' count'

/-- `mask_to_points` with the pre-check removed (same contract otherwise). -/
def mask_to_points_nocheck {α : Type} (mask : List (List Bool))
    (xy : Nat → Nat → α × α) (step maxPoints : Nat) : List (α × α) :=
  scanRowsNC mask xy step maxPoints (rangeStep mask.length step) [] 0

/-- The strided true pixels of row `r`: columns that are multiples of
    `step`, ascending, at which the mask is true. -/
def rowPix (mask : List (List Bool)) (step r : Nat) : List (Nat × Nat) :=
  ((rangeStep (ncols mask) step).filter (getPix mask r)).map (fun c => (r, c))

/-- The strided true pixels of a mask in row-major order: rows and columns
    both multiples of `step`, ascending row then ascending column. -/
def stridedTruePixels (mask : List (List Bool)) (step : Nat) :
    List (Nat × Nat) :=
  (rangeStep mask.length step).flatMap (rowPix mask step)

/-- Row-major strict order on pixel indices. -/
def rowMajorLt (p q : Nat × Nat) : Prop :=
  p.1 < q.1 ∨ (p.1 = q.1 ∧ p.2 < q.2)

/-- Minimal model of a pandas DataFrame: named columns and string rows. -/
structure DataFrame where
  columns : List String
  rows : List (List String)
deriving Repr, DecidableEq

def commaStr : String := ","

def newlineStr : String := "\n"

/-- `points_to_dataframe(points)` of app.py lines 83-87: an empty point
    list yields the empty frame with the fixed two-column schema, else the
    latitude/longitude table of the points in order. -/
def points_to_dataframe {α : Type} [ToString α] (points : List (α × α)) :
    DataFrame :=
  if points.isEmpty then
    ⟨["latitude", "longitude"], []⟩
  else
    ⟨["latitude", "longitude"],
      points.map (fun p => [toString p.1, toString p.2])⟩

/-- `df.to_csv(index=False)` of app.py line 153 for such a frame: the
    comma-joined header line, then one comma-joined line per row. -/
def to_csv (df : DataFrame) : String :=
  String.intercalate commaStr df.columns ++ newlineStr
    ++ String.join (df.rows.map
        (fun r => String.intercalate commaStr r ++ newlineStr))

/-- The shape-mismatch error of the pairs loop (app.py lines 120-122):
    the comparison is skipped and both shapes are reported. -/
structure ShapeMismatch where
  shapeA : Nat × Nat
  shapeB : Nat × Nat
deriving Repr, DecidableEq

/-- One iteration of the pairs loop (app.py lines 116-123): if the shapes
    differ, report a `ShapeMismatch` carrying both shapes and skip the
    comparison (`continue`), otherwise run `compute_changes`. -/
def process_pair (p : List (List Int) × List (List Int)) :
    Except ShapeMismatch (List (List Bool) × List (List Bool)) :=
  if npShape p.1 ≠ npShape p.2 then
    .error ⟨npShape p.1, npShape p.2⟩
  else
    .ok (compute_changes p.1 p.2)

/-- The whole pairs loop: each comparison is processed independently. -/
def process_pairs (ps : List (List (List Int) × List (List Int))) :
    List (Except ShapeMismatch (List (List Bool) × List (List Bool))) :=
  ps.map process_pair

/-! ### Helper lemmas: elementwise access into 2D `zipWith` results -/

theorem zipWith_getD {α β γ : Type} (f : α → β → γ) :
    ∀ (l1 : List α) (l2 : List β) (i : Nat) (d1 : α) (d2 : β) (d3 : γ),
      i < l1.length → i < l2.length →
      (List.zipWith f l1 l2).getD i d3 = f (l1.getD i d1) (l2.getD i d2)
  | [], _, i, _, _, _, h1, _ => absurd h1 (by simp)
  | _ :: _, [], i, _, _, _, _, h2 => absurd h2 (by simp)
  | _ :: _, _ :: _, 0, _, _, _, _, _ => rfl
  | _ :: l1, _ :: l2, i + 1, d1, d2, d3, h1, h2 =>
      zipWith_getD f l1 l2 i d1 d2 d3
        (Nat.lt_of_succ_lt_succ h1) (Nat.lt_of_succ_lt_succ h2)

theorem getD_zipWith_and :
    ∀ (l1 l2 : List Bool) (c : Nat),
      (List.zipWith (fun x y => x && y) l1 l2).getD c false
        = (l1.getD c false && l2.getD c false)
  | [], l2, c => by simp
  | _ :: _, [], c => by simp
  | _ :: _, _ :: _, 0 => rfl
  | _ :: l1, _ :: l2, c + 1 => getD_zipWith_and l1 l2 c

theorem getPix_maskAnd :
    ∀ (m1 m2 : List (List Bool)) (r c : Nat),
      getPix (maskAnd m1 m2) r c = (getPix m1 r c && getPix m2 r c)
  | [], m2, r, c => by simp [maskAnd, getPix]
  | _ :: _, [], r, c => by simp [maskAnd, getPix]
  | row1 :: m1, row2 :: m2, 0, c => by
      simpa [maskAnd, getPix] using getD_zipWith_and row1 row2 c
  | _ :: m1, _ :: m2, r + 1, c => by
      simpa [maskAnd, getPix] using getPix_maskAnd m1 m2 r c

theorem getPix_zip2_eq {g : Int → Int → Bool} (a b : List (List Int)) (r c : Nat)
    (hra : r < a.length) (hrb : r < b.length)
    (hca : c < (a.getD r []).length) (hcb : c < (b.getD r []).length) :
    getPix (List.zipWith (fun ra rb => List.zipWith g ra rb) a b) r c
      = g (getV a r c) (getV b r c) := by
  unfold getPix getV
  rw [zipWith_getD _ a b r [] [] [] hra hrb,
    zipWith_getD g (a.getD r []) (b.getD r []) c 0 0 false hca hcb]

theorem getPix_zip2_eq_false {g : Int → Int → Bool} (a b : List (List Int))
    (r c : Nat)
    (h : ¬(r < a.length ∧ r < b.length ∧
            c < (a.getD r []).length ∧ c < (b.getD r []).length)) :
    getPix (List.zipWith (fun ra rb => List.zipWith g ra rb) a b) r c = false := by
  unfold getPix
  by_cases hr : r < a.length ∧ r < b.length
  · obtain ⟨hra, hrb⟩ := hr
    rw [zipWith_getD _ a b r [] [] [] hra hrb]
    have hc : (a.getD r []).length ≤ c ∨ (b.getD r []).length ≤ c := by
      rcases Nat.lt_or_ge c (a.getD r []).length with h1 | h1
      · rcases Nat.lt_or_ge c (b.getD r []).length with h2 | h2
        · exact absurd ⟨hra, hrb, h1, h2⟩ h
        · exact Or.inr h2
      · exact Or.inl h1
    apply List.getD_eq_default
    rw [List.length_zipWith]
    rcases hc with h1 | h1
    · exact le_trans (Nat.min_le_left _ _) h1
    · exact le_trans (Nat.min_le_right _ _) h1
  · have hlen : (List.zipWith
        (fun ra rb => List.zipWith g ra rb) a b).length ≤ r := by
      rw [List.length_zipWith]
      rcases Nat.lt_or_ge r a.length with h1 | h1
      · rcases Nat.lt_or_ge r b.length with h2 | h2
        · exact absurd ⟨h1, h2⟩ hr
        · exact le_trans (Nat.min_le_right _ _) h2
      · exact le_trans (Nat.min_le_left _ _) h1
    rw [List.getD_eq_default _ _ hlen]
    rfl

/-! ### Helper lemmas: `rangeStep` -/

theorem mem_rangeStep {n step i : Nat} :
    i ∈ rangeStep n step ↔ i < n ∧ i % step = 0 := by
  simp [rangeStep, List.mem_filter, List.mem_range]

theorem rangeStep_pairwise (n step : Nat) :
    List.Pairwise (· < ·) (rangeStep n step) :=
  (List.pairwise_lt_range n).filter _

theorem rangeStep_eq_of_lt (step : Nat) :
    ∀ (n : Nat), n < step → rangeStep n step = if n = 0 then [] else [0]
  | 0, _ => by simp [rangeStep]
  | n + 1, h => by
    rw [rangeStep, List.range_succ, List.filter_append]
    have hfr : List.filter (fun i => i % step = 0) (List.range n)
        = rangeStep n step := rfl
    rw [hfr, rangeStep_eq_of_lt step n (Nat.lt_of_succ_lt h)]
    cases n with
    | zero =>
      have h0 : 0 % step = 0 := Nat.zero_mod step
      simp [h0]
    | succ m =>
      have hm : (m + 1) % step = m + 1 := Nat.mod_eq_of_lt (Nat.lt_of_succ_lt h)
      simp [hm]

/-! ### The sampler's loops, solved in closed form -/

theorem scanCols_eq {α : Type} (mask : List (List Bool)) (xy : Nat → Nat → α × α)
    (maxPoints r : Nat) (cs : List Nat) :
    ∀ (pts : List (α × α)) (count : Nat), count < maxPoints →
      scanCols mask xy maxPoints r cs pts count =
        (pts ++ ((cs.filter (getPix mask r)).map
            (samplePoint xy r)).take (maxPoints - count),
         count + min (cs.filter (getPix mask r)).length (maxPoints - count),
         decide (maxPoints ≤ count + (cs.filter (getPix mask r)).length)) := by
  induction cs with
  | nil =>
    intro pts count h
    have hd : ¬ (maxPoints ≤ count) := Nat.not_le.mpr h
    simp [scanCols, hd]
  | cons c cs ih =>
    intro pts count h
    by_cases hp : getPix mask r c = true
    · rw [List.filter_cons_of_pos hp]
      by_cases hm : maxPoints ≤ count + 1
      · have hmp : maxPoints = count + 1 := Nat.le_antisymm hm h
        subst hmp
        have hstep : scanCols mask xy (count + 1) r (c :: cs) pts count
            = (pts ++ [samplePoint xy r c], count + 1, true) := by
          simp [scanCols, hp]
        rw [hstep]
        simp only [Nat.add_sub_cancel_left, List.map_cons, List.take_succ_cons,
          List.take_zero, List.length_cons, Prod.mk.injEq]
        refine ⟨trivial, by omega, by simp⟩
      · have h1 : count + 1 < maxPoints := by omega
        have hstep : scanCols mask xy maxPoints r (c :: cs) pts count
            = scanCols mask xy maxPoints r cs (pts ++ [samplePoint xy r c]) (count + 1) := by
          simp [scanCols, hp, hm]
        rw [hstep, ih _ _ h1]
        have hk : maxPoints - count = (maxPoints - (count + 1)) + 1 := by omega
        simp only [List.map_cons, List.length_cons, Prod.mk.injEq, hk,
          List.take_succ_cons, List.append_assoc, List.singleton_append]
        refine ⟨trivial, by omega, by
          have : maxPoints ≤ count + 1 + (cs.filter (getPix mask r)).length
              ↔ maxPoints ≤ count + ((cs.filter (getPix mask r)).length + 1) := by
            omega
          simp [this]⟩
    · rw [List.filter_cons_of_neg (by simpa using hp)]
      have hstep : scanCols mask xy maxPoints r (c :: cs) pts count
          = scanCols mask xy maxPoints r cs pts count := by
        simp [scanCols, hp]
      rw [hstep, ih _ _ h]

theorem scanRows_cons_halt {α : Type} (mask : List (List Bool))
    (xy : Nat → Nat → α × α) (step maxPoints r : Nat) (rs : List Nat)
    (pts res : List (α × α)) (count cnt : Nat)
    (hany : (rangeStep (ncols mask) step).any (fun c => getPix mask r c) = true)
    (hsc : scanCols mask xy maxPoints r (rangeStep (ncols mask) step) pts count
      = (res, cnt, true)) :
    scanRows mask xy step maxPoints (r :: rs) pts count = res := by
  simp [scanRows, hany, hsc]

theorem scanRows_cons_go {α : Type} (mask : List (List Bool))
    (xy : Nat → Nat → α × α) (step maxPoints r : Nat) (rs : List Nat)
    (pts res : List (α × α)) (count cnt : Nat)
    (hany : (rangeStep (ncols mask) step).any (fun c => getPix mask r c) = true)
    (hsc : scanCols mask xy maxPoints r (rangeStep (ncols mask) step) pts count
      = (res, cnt, false)) :
    scanRows mask xy step maxPoints (r :: rs) pts count
      = scanRows mask xy step maxPoints rs res cnt := by
  simp [scanRows, hany, hsc]

theorem scanRows_eq {α : Type} (mask : List (List Bool)) (xy : Nat → Nat → α × α)
    (step maxPoints : Nat) (rs : List Nat) :
    ∀ (pts : List (α × α)) (count : Nat), count < maxPoints →
      scanRows mask xy step maxPoints rs pts count =
        pts ++ ((rs.flatMap (rowPix mask step)).map
            (fun p => samplePoint xy p.1 p.2)).take (maxPoints - count) := by
  induction rs with
  | nil => intro pts count h; simp [scanRows]
  | cons r rs ih =>
    intro pts count h
    have hmap : (rowPix mask step r).map (fun p : Nat × Nat => samplePoint xy p.1 p.2)
        = ((rangeStep (ncols mask) step).filter (getPix mask r)).map
            (samplePoint xy r) := by
      simp [rowPix, List.map_map, Function.comp]
    by_cases hany :
        (rangeStep (ncols mask) step).any (fun c => getPix mask r c) = true
    · by_cases hfull : maxPoints ≤
          count + ((rangeStep (ncols mask) step).filter (getPix mask r)).length
      · have hsc : scanCols mask xy maxPoints r (rangeStep (ncols mask) step) pts count
            = (pts ++ (((rangeStep (ncols mask) step).filter (getPix mask r)).map
                  (samplePoint xy r)).take (maxPoints - count),
               count + min ((rangeStep (ncols mask) step).filter
                  (getPix mask r)).length (maxPoints - count), true) := by
          rw [scanCols_eq mask xy maxPoints r _ pts count h, decide_eq_true hfull]
        rw [scanRows_cons_halt mask xy step maxPoints r rs pts _ count _ hany hsc,
          List.flatMap_cons, List.map_append, hmap,
          List.take_append_eq_append_take]
        have h0 : maxPoints - count
            - ((((rangeStep (ncols mask) step).filter (getPix mask r)).map
                (samplePoint xy r)).length) = 0 := by
          simp only [List.length_map]; omega
        rw [h0]
        simp
      · have hlt : count + ((rangeStep (ncols mask) step).filter
            (getPix mask r)).length < maxPoints := by omega
        have hsc : scanCols mask xy maxPoints r (rangeStep (ncols mask) step) pts count
            = (pts ++ (((rangeStep (ncols mask) step).filter (getPix mask r)).map
                  (samplePoint xy r)),
               count + ((rangeStep (ncols mask) step).filter
                  (getPix mask r)).length, false) := by
          rw [scanCols_eq mask xy maxPoints r _ pts count h, decide_eq_false hfull]
          have htk : (((rangeStep (ncols mask) step).filter (getPix mask r)).map
              (samplePoint xy r)).take (maxPoints - count)
              = ((rangeStep (ncols mask) step).filter (getPix mask r)).map
                  (samplePoint xy r) := by
            apply List.take_of_length_le
            simp only [List.length_map]; omega
          rw [htk]
          have hmin : min ((rangeStep (ncols mask) step).filter
              (getPix mask r)).length (maxPoints - count)
              = ((rangeStep (ncols mask) step).filter (getPix mask r)).length := by
            omega
          rw [hmin]
        rw [scanRows_cons_go mask xy step maxPoints r rs pts _ count _ hany hsc,
          ih _ _ hlt, List.flatMap_cons, List.map_append, hmap,
          List.take_append_eq_append_take]
        have htk2 : (((rangeStep (ncols mask) step).filter (getPix mask r)).map
            (samplePoint xy r)).take (maxPoints - count)
            = ((rangeStep (ncols mask) step).filter (getPix mask r)).map
                (samplePoint xy r) := by
          apply List.take_of_length_le
          simp only [List.length_map]; omega
        rw [htk2, List.append_assoc]
        have harith : maxPoints - count
            - ((((rangeStep (ncols mask) step).filter (getPix mask r)).map
                (samplePoint xy r)).length)
            = maxPoints - (count + ((rangeStep (ncols mask) step).filter
                (getPix mask r)).length) := by
          simp only [List.length_map]; omega
        rw [harith]
    · have hskip : scanRows mask xy step maxPoints (r :: rs) pts count
          = scanRows mask xy step maxPoints rs pts count := by
        simp [scanRows, hany]
      have ht0 : (rangeStep (ncols mask) step).filter (getPix mask r) = [] := by
        rw [List.filter_eq_nil_iff]
        intro c hc
        have hfa := List.any_eq_false.mp (Bool.eq_false_iff.mpr hany)
        exact fun hgc => (hfa c hc) hgc
      rw [hskip, ih _ _ h, List.flatMap_cons]
      simp [rowPix, ht0]

/-- Closed form for `mask_to_points`: for any positive cap, the result is
    the row-major list of strided true pixels, truncated to `maxPoints`,
    each converted through the transform. -/
theorem mask_to_points_eq {α : Type} (mask : List (List Bool))
    (xy : Nat → Nat → α × α) (step maxPoints : Nat) (h : 1 ≤ maxPoints) :
    mask_to_points mask xy step maxPoints
      = ((stridedTruePixels mask step).take maxPoints).map
          (fun p => samplePoint xy p.1 p.2) := by
  rw [mask_to_points, scanRows_eq mask xy step maxPoints _ [] 0 h,
    List.nil_append, Nat.sub_zero, ← List.map_take]
  rfl

/-! ### Row-major ordering of the strided pixel list -/

theorem pairwise_rowPix (mask : List (List Bool)) (step r : Nat) :
    List.Pairwise rowMajorLt (rowPix mask step r) :=
  List.Pairwise.map _ (fun _ _ hab => Or.inr ⟨rfl, hab⟩)
    ((rangeStep_pairwise _ _).filter _)

theorem mem_rowPix {mask : List (List Bool)} {step r : Nat} {p : Nat × Nat}
    (hp : p ∈ rowPix mask step r) : p.1 = r := by
  simp only [rowPix, List.mem_map] at hp
  obtain ⟨c, _, hc⟩ := hp
  rw [← hc]

theorem pairwise_flatMap_rowPix (mask : List (List Bool)) (step : Nat) :
    ∀ (rs : List Nat), List.Pairwise (· < ·) rs →
      List.Pairwise rowMajorLt (rs.flatMap (rowPix mask step))
  | [], _ => by simp
  | r :: rs, hp => by
    rw [List.flatMap_cons, List.pairwise_append]
    refine ⟨pairwise_rowPix mask step r,
      pairwise_flatMap_rowPix mask step rs (List.Pairwise.of_cons hp), ?_⟩
    intro a ha b hb
    obtain ⟨r2, hr2, hb2⟩ := List.mem_flatMap.mp hb
    have hlt : r < r2 := (List.pairwise_cons.mp hp).1 r2 hr2
    exact Or.inl (by rw [mem_rowPix ha, mem_rowPix hb2]; exact hlt)

theorem stridedTruePixels_pairwise (mask : List (List Bool)) (step : Nat) :
    List.Pairwise rowMajorLt (stridedTruePixels mask step) :=
  pairwise_flatMap_rowPix mask step _ (rangeStep_pairwise _ _)

/-! ### Claim C2 -/

/-- C2: for every mask, transform, step ≥ 1 and maxPoints ≥ 1,
    `mask_to_points` returns at most `maxPoints` points; whenever the
    number of true pixels at strided positions (row and column both
    multiples of `step`) is at most `maxPoints`, the returned length is
    exactly that count (the third conjunct identifies that count as the
    length of `stridedTruePixels`); in particular an all-false mask yields
    the empty sequence. -/
theorem mask_to_points_count_bound {α : Type} (mask : List (List Bool))
    (xy : Nat → Nat → α × α) (step maxPoints : Nat)
    (hs : 1 ≤ step) (hm : 1 ≤ maxPoints) :
    (mask_to_points mask xy step maxPoints).length ≤ maxPoints
    ∧ ((stridedTruePixels mask step).length ≤ maxPoints →
        (mask_to_points mask xy step maxPoints).length
          = (stridedTruePixels mask step).length)
    ∧ (∀ r c, (r, c) ∈ stridedTruePixels mask step
        ↔ (r < mask.length ∧ c < ncols mask ∧ r % step = 0 ∧ c % step = 0
            ∧ getPix mask r c = true))
    ∧ ((∀ r c, getPix mask r c = false) →
        mask_to_points mask xy step maxPoints = []) := by
  have hmain := mask_to_points_eq mask xy step maxPoints hm
  refine ⟨?_, ?_, ?_, ?_⟩
  · rw [hmain]
    simp only [List.length_map, List.length_take]
    omega
  · intro hle
    rw [hmain]
    simp only [List.length_map, List.length_take]
    omega
  · intro r c
    constructor
    · intro hmem
      obtain ⟨r2, hr2, hb2⟩ := List.mem_flatMap.mp hmem
      simp only [rowPix, List.mem_map] at hb2
      obtain ⟨c2, hc2, hp2⟩ := hb2
      obtain ⟨hc2m, hc2t⟩ := List.mem_filter.mp hc2
      have hr2' : r2 = r := congrArg Prod.fst hp2
      have hc2' : c2 = c := congrArg Prod.snd hp2
      subst hr2' hc2'
      obtain ⟨hrlt, hrmod⟩ := mem_rangeStep.mp hr2
      obtain ⟨hclt, hcmod⟩ := mem_rangeStep.mp hc2m
      exact ⟨hrlt, hclt, hrmod, hcmod, hc2t⟩
    · rintro ⟨hrlt, hclt, hrmod, hcmod, hpix⟩
      apply List.mem_flatMap.mpr
      refine ⟨r, mem_rangeStep.mpr ⟨hrlt, hrmod⟩, ?_⟩
      simp only [rowPix, List.mem_map]
      exact ⟨c, List.mem_filter.mpr ⟨mem_rangeStep.mpr ⟨hclt, hcmod⟩, hpix⟩, rfl⟩
  · intro hall
    rw [hmain]
    have hnil : stridedTruePixels mask step = [] := by
      unfold stridedTruePixels
      apply List.flatMap_eq_nil_iff.mpr
      intro r _
      unfold rowPix
      rw [List.filter_eq_nil_iff.mpr (fun c _ => by simp [hall r c])]
      rfl
    simp [hnil]

/-- C2 witness. -/
theorem mask_to_points_count_bound_witness :
    (1 ≤ 1 ∧ 1 ≤ 2)
    ∧ ((mask_to_points [[true], [false]]
          (fun r c => ((r : Int), (c : Int))) 1 2).length ≤ 2
      ∧ ((stridedTruePixels [[true], [false]] 1).length ≤ 2 →
          (mask_to_points [[true], [false]]
              (fun r c => ((r : Int), (c : Int))) 1 2).length
            = (stridedTruePixels [[true], [false]] 1).length)
      ∧ (∀ r c, (r, c) ∈ stridedTruePixels [[true], [false]] 1
          ↔ (r < (([[true], [false]] : List (List Bool))).length
              ∧ c < ncols [[true], [false]] ∧ r % 1 = 0 ∧ c % 1 = 0
              ∧ getPix [[true], [false]] r c = true))
      ∧ ((∀ r c, getPix [[true], [false]] r c = false) →
          mask_to_points [[true], [false]]
            (fun r c => ((r : Int), (c : Int))) 1 2 = [])) :=
  ⟨⟨by decide, by decide⟩,
    mask_to_points_count_bound [[true], [false]]
      (fun r c => ((r : Int), (c : Int))) 1 2 (by decide) (by decide)⟩

/-! ### Claim C3 -/

/-- C3: the pixel indices underlying the points of `mask_to_points` are
    strictly increasing in row-major order, and under cap truncation
    exactly the row-major-first true strided pixels are retained (the
    returned points are the transform images of the first `maxPoints`
    entries of the row-major strided true-pixel list); in particular a
    (4,4) all-true mask with step 2 and cap 3 yields exactly the points of
    pixels (0,0), (0,2), (2,0) through the transform. -/
theorem mask_to_points_row_major_order {α : Type} (mask : List (List Bool))
    (xy : Nat → Nat → α × α) (step maxPoints : Nat) (hm : 1 ≤ maxPoints) :
    List.Pairwise rowMajorLt ((stridedTruePixels mask step).take maxPoints)
    ∧ mask_to_points mask xy step maxPoints
        = ((stridedTruePixels mask step).take maxPoints).map
            (fun p => samplePoint xy p.1 p.2)
    ∧ mask_to_points (List.replicate 4 (List.replicate 4 true)) xy 2 3
        = [samplePoint xy 0 0, samplePoint xy 0 2, samplePoint xy 2 0] := by
  refine ⟨List.Pairwise.sublist (List.take_sublist _ _)
      (stridedTruePixels_pairwise mask step),
    mask_to_points_eq mask xy step maxPoints hm, ?_⟩
  rfl

/-- C3 witness. -/
theorem mask_to_points_row_major_order_witness :
    (1 ≤ 3)
    ∧ (List.Pairwise rowMajorLt ((stridedTruePixels [[true]] 1).take 3)
      ∧ mask_to_points [[true]] (fun r c => ((r : Int), (c : Int))) 1 3
          = ((stridedTruePixels [[true]] 1).take 3).map
              (fun p => samplePoint (fun r c => ((r : Int), (c : Int))) p.1 p.2)
      ∧ mask_to_points (List.replicate 4 (List.replicate 4 true))
            (fun r c => ((r : Int), (c : Int))) 2 3
          = [samplePoint (fun r c => ((r : Int), (c : Int))) 0 0,
             samplePoint (fun r c => ((r : Int), (c : Int))) 0 2,
             samplePoint (fun r c => ((r : Int), (c : Int))) 2 0]) :=
  ⟨by decide,
    mask_to_points_row_major_order [[true]]
      (fun r c => ((r : Int), (c : Int))) 1 3 (by decide)⟩

/-! ### Claim C7 -/

theorem scanCols_no_true {α : Type} (mask : List (List Bool))
    (xy : Nat → Nat → α × α) (maxPoints r : Nat) :
    ∀ (cs : List Nat), (∀ c ∈ cs, getPix mask r c = false) →
      ∀ (pts : List (α × α)) (count : Nat),
        scanCols mask xy maxPoints r cs pts count = (pts, count, false)
  | [], _, pts, count => by simp [scanCols]
  | c :: cs, hall, pts, count => by
    have hc : getPix mask r c = false := hall c (List.mem_cons_self c cs)
    have hrest := scanCols_no_true mask xy maxPoints r cs
      (fun x hx => hall x (List.mem_cons_of_mem _ hx)) pts count
    simp [scanCols, hc, hrest]

theorem scanRowsNC_eq_scanRows {α : Type} (mask : List (List Bool))
    (xy : Nat → Nat → α × α) (step maxPoints : Nat) :
    ∀ (rs : List Nat) (pts : List (α × α)) (count : Nat),
      scanRowsNC mask xy step maxPoints rs pts count
        = scanRows mask xy step maxPoints rs pts count := by
  intro rs
  induction rs with
  | nil => intro pts count; rfl
  | cons r rs ih =>
    intro pts count
    by_cases hany :
        (rangeStep (ncols mask) step).any (fun c => getPix mask r c) = true
    · rcases hsc : scanCols mask xy maxPoints r
          (rangeStep (ncols mask) step) pts count with ⟨pts2, count2, halted⟩
      cases halted with
      | false =>
        have h1 : scanRowsNC mask xy step maxPoints (r :: rs) pts count
            = scanRowsNC mask xy step maxPoints rs pts2 count2 := by
          simp [scanRowsNC, hsc]
        rw [h1, scanRows_cons_go mask xy step maxPoints r rs pts pts2
          count count2 hany hsc, ih]
      | true =>
        have h1 : scanRowsNC mask xy step maxPoints (r :: rs) pts count
            = pts2 := by
          simp [scanRowsNC, hsc]
        rw [h1, scanRows_cons_halt mask xy step maxPoints r rs pts pts2
          count count2 hany hsc]
    · have hfa : ∀ c ∈ rangeStep (ncols mask) step, getPix mask r c = false := by
        intro c hc
        have hfa2 := List.any_eq_false.mp (Bool.eq_false_iff.mpr hany)
        exact Bool.eq_false_iff.mpr (hfa2 c hc)
      have hsc := scanCols_no_true mask xy maxPoints r _ hfa pts count
      have h1 : scanRowsNC mask xy step maxPoints (r :: rs) pts count
          = scanRowsNC mask xy step maxPoints rs pts count := by
        simp [scanRowsNC, hsc]
      have h2 : scanRows mask xy step maxPoints (r :: rs) pts count
          = scanRows mask xy step maxPoints rs pts count := by
        simp [scanRows, hany]
      rw [h1, h2, ih]

/-- C7: the row-level pre-check (skipping a row whose strided slice has no
    true value) has no observable effect: the sampler without the pre-check
    returns exactly the same point sequence, in the same order, for every
    mask, transform, step and cap (including under cap truncation). -/
theorem row_precheck_no_observable_effect {α : Type} (mask : List (List Bool))
    (xy : Nat → Nat → α × α) (step maxPoints : Nat) :
    mask_to_points_nocheck mask xy step maxPoints
      = mask_to_points mask xy step maxPoints :=
  scanRowsNC_eq_scanRows mask xy step maxPoints _ [] 0

/-! ### Claim C9 -/

theorem getPix_zero_of_ncols_zero {mask : List (List Bool)}
    (h : ncols mask = 0) : getPix mask 0 0 = false := by
  have h2 : (mask.headD []).length = 0 := h
  unfold getPix
  have hhd : mask.getD 0 [] = mask.headD [] := by cases mask <;> rfl
  rw [hhd, List.getD_eq_default _ _ (Nat.le_of_eq h2)]

/-- C9: when the step is larger than both dimensions of the mask, the
    sampler yields at most the single sample at pixel (0,0): the sample is
    present exactly when the mask is true there, and no other pixel
    contributes a point. -/
theorem large_step_single_sample {α : Type} (mask : List (List Bool))
    (xy : Nat → Nat → α × α) (step maxPoints : Nat)
    (h1 : mask.length < step) (h2 : ncols mask < step) :
    mask_to_points mask xy step maxPoints
      = if getPix mask 0 0 then [samplePoint xy 0 0] else [] := by
  rw [mask_to_points, rangeStep_eq_of_lt step mask.length h1]
  by_cases h0 : mask.length = 0
  · have hm : mask = [] := List.length_eq_zero.mp h0
    subst hm
    simp [scanRows, getPix]
  · rw [if_neg h0]
    have hcols := rangeStep_eq_of_lt step (ncols mask) h2
    by_cases hc0 : ncols mask = 0
    · have hnil : rangeStep (ncols mask) step = [] := by
        rw [hcols, if_pos hc0]
      rw [getPix_zero_of_ncols_zero hc0, if_neg (by simp)]
      simp [scanRows, hnil]
    · rw [if_neg hc0] at hcols
      by_cases hp : getPix mask 0 0 = true
      · rw [if_pos hp]
        have hany : (rangeStep (ncols mask) step).any
            (fun c => getPix mask 0 c) = true := by
          simp [hcols, hp]
        by_cases hmx : maxPoints ≤ 1
        · have hsc : scanCols mask xy maxPoints 0
              (rangeStep (ncols mask) step) [] 0
              = ([samplePoint xy 0 0], 1, true) := by
            simp [hcols, scanCols, hp, hmx]
          exact scanRows_cons_halt mask xy step maxPoints 0 [] []
            [samplePoint xy 0 0] 0 1 hany hsc
        · have hsc : scanCols mask xy maxPoints 0
              (rangeStep (ncols mask) step) [] 0
              = ([samplePoint xy 0 0], 1, false) := by
            simp [hcols, scanCols, hp, hmx]
          rw [scanRows_cons_go mask xy step maxPoints 0 [] []
            [samplePoint xy 0 0] 0 1 hany hsc]
          rfl
      · rw [if_neg hp]
        have hany : (rangeStep (ncols mask) step).any
            (fun c => getPix mask 0 c) = false := by
          simp [hcols, Bool.eq_false_iff.mpr hp]
        simp [scanRows, hany]

/-- C9 witness. -/
theorem large_step_single_sample_witness :
    (List.length [[true]] < 2 ∧ ncols [[true]] < 2)
    ∧ mask_to_points [[true]] (fun r c => ((r : Int), (c : Int))) 2 5
        = (if getPix [[true]] 0 0
            then [samplePoint (fun r c => ((r : Int), (c : Int))) 0 0]
            else []) :=
  ⟨⟨by decide, by decide⟩,
    large_step_single_sample [[true]] (fun r c => ((r : Int), (c : Int))) 2 5
      (by decide) (by decide)⟩

/-! ### Claims about `compute_changes` -/

theorem getPix_changes_fst (a b : List (List Int)) (r c : Nat)
    (hra : r < a.length) (hrb : r < b.length)
    (hca : c < (a.getD r []).length) (hcb : c < (b.getD r []).length) :
    getPix (compute_changes a b).1 r c
      = (decide (getV a r c = 0) && decide (0 < getV b r c)) :=
  getPix_zip2_eq a b r c hra hrb hca hcb

theorem getPix_changes_snd (a b : List (List Int)) (r c : Nat)
    (hra : r < a.length) (hrb : r < b.length)
    (hca : c < (a.getD r []).length) (hcb : c < (b.getD r []).length) :
    getPix (compute_changes a b).2 r c
      = (decide (0 < getV a r c) && decide (getV b r c = 0)) :=
  getPix_zip2_eq a b r c hra hrb hca hcb

/-- C1: for equal-shape numeric masks, at every in-range pixel the "new"
    output is true exactly when the value in A is exactly zero and the
    value in B is strictly positive, and the "cleaned" output is true
    exactly when the value in A is strictly positive and the value in B is
    exactly zero; and on A = [[0,1],[0,0]], B = [[0,0],[1,1]] the result is
    new = [[0,0],[1,1]], cleaned = [[0,1],[0,0]]. -/
theorem compute_changes_pixel_semantics (a b : List (List Int))
    (hsh : EqShape a b) (r c : Nat)
    (hr : r < a.length) (hc : c < (a.getD r []).length) :
    (getPix (compute_changes a b).1 r c
        = (decide (getV a r c = 0) && decide (0 < getV b r c))
      ∧ getPix (compute_changes a b).2 r c
        = (decide (0 < getV a r c) && decide (getV b r c = 0)))
    ∧ compute_changes [[0, 1], [0, 0]] [[0, 0], [1, 1]]
        = ([[false, false], [true, true]],
           [[false, true], [false, false]]) := by
  have hrb : r < b.length := hsh.1 ▸ hr
  have hcb : c < (b.getD r []).length := hsh.2 r ▸ hc
  exact ⟨⟨getPix_changes_fst a b r c hr hrb hc hcb,
    getPix_changes_snd a b r c hr hrb hc hcb⟩, by decide⟩

/-- C1 witness. -/
theorem compute_changes_pixel_semantics_witness :
    (EqShape [[0, 1], [0, 0]] [[0, 0], [1, 1]]
      ∧ 1 < ([[0, 1], [0, 0]] : List (List Int)).length
      ∧ 0 < (([[0, 1], [0, 0]] : List (List Int)).getD 1 []).length)
    ∧ ((getPix (compute_changes [[0, 1], [0, 0]] [[0, 0], [1, 1]]).1 1 0
          = (decide (getV [[0, 1], [0, 0]] 1 0 = 0)
              && decide (0 < getV [[0, 0], [1, 1]] 1 0))
        ∧ getPix (compute_changes [[0, 1], [0, 0]] [[0, 0], [1, 1]]).2 1 0
          = (decide (0 < getV [[0, 1], [0, 0]] 1 0)
              && decide (getV [[0, 0], [1, 1]] 1 0 = 0)))
      ∧ compute_changes [[0, 1], [0, 0]] [[0, 0], [1, 1]]
        = ([[false, false], [true, true]],
           [[false, true], [false, false]])) :=
  ⟨⟨⟨by decide, fun i => by
      match i with
      | 0 => rfl
      | 1 => rfl
      | n + 2 => rfl⟩, by decide, by decide⟩,
    compute_changes_pixel_semantics [[0, 1], [0, 0]] [[0, 0], [1, 1]]
      ⟨by decide, fun i => by
        match i with
        | 0 => rfl
        | 1 => rfl
        | n + 2 => rfl⟩ 1 0 (by decide) (by decide)⟩

/-- C4: the two outputs of `compute_changes` are mutually exclusive — the
    pixelwise conjunction of `newMask` and `cleanedMask` is all-false:
    every read of it (in range or not) is false. -/
theorem changes_mutually_exclusive (a b : List (List Int)) (r c : Nat) :
    getPix (maskAnd (compute_changes a b).1 (compute_changes a b).2) r c
      = false := by
  rw [getPix_maskAnd]
  by_cases hin : r < a.length ∧ r < b.length ∧
      c < (a.getD r []).length ∧ c < (b.getD r []).length
  · obtain ⟨h1, h2, h3, h4⟩ := hin
    rw [getPix_changes_fst a b r c h1 h2 h3 h4,
      getPix_changes_snd a b r c h1 h2 h3 h4]
    by_cases hx : getV a r c = 0
    · simp [hx]
    · simp [hx]
  · rw [show (compute_changes a b).1
        = List.zipWith (fun ra rb => List.zipWith
            (fun x y => decide (x = 0) && decide (0 < y)) ra rb) a b from rfl,
      getPix_zip2_eq_false a b r c hin]
    rfl

/-- C5: for equal-shape masks with the mask value range (zero = absent,
    positive = present), every in-range pixel satisfies exactly one of the
    four classifications: new, cleaned, present-in-both, absent-in-both. -/
theorem changes_four_way_partition (a b : List (List Int))
    (hsh : EqShape a b) (r c : Nat)
    (hr : r < a.length) (hc : c < (a.getD r []).length)
    (ha : 0 ≤ getV a r c) (hb : 0 ≤ getV b r c) :
    ([getPix (compute_changes a b).1 r c,
      getPix (compute_changes a b).2 r c,
      decide (0 < getV a r c) && decide (0 < getV b r c),
      decide (getV a r c = 0) && decide (getV b r c = 0)].count true) = 1 := by
  have hrb : r < b.length := hsh.1 ▸ hr
  have hcb : c < (b.getD r []).length := hsh.2 r ▸ hc
  rw [getPix_changes_fst a b r c hr hrb hc hcb,
    getPix_changes_snd a b r c hr hrb hc hcb]
  rcases ha.lt_or_eq with hxa | hxa
  · rcases hb.lt_or_eq with hxb | hxb
    · simp [List.count_cons, hxa, hxb, hxa.ne', hxb.ne']
    · simp [List.count_cons, hxa, hxa.ne', ← hxb]
  · rcases hb.lt_or_eq with hxb | hxb
    · simp [List.count_cons, hxb, hxb.ne', ← hxa]
    · simp [List.count_cons, ← hxa, ← hxb]

/-- C5 witness. -/
theorem changes_four_way_partition_witness :
    (EqShape [[0, 1], [0, 0]] [[0, 0], [1, 1]]
      ∧ 0 < ([[0, 1], [0, 0]] : List (List Int)).length
      ∧ 1 < (([[0, 1], [0, 0]] : List (List Int)).getD 0 []).length
      ∧ 0 ≤ getV [[0, 1], [0, 0]] 0 1 ∧ 0 ≤ getV [[0, 0], [1, 1]] 0 1)
    ∧ ([getPix (compute_changes [[0, 1], [0, 0]] [[0, 0], [1, 1]]).1 0 1,
        getPix (compute_changes [[0, 1], [0, 0]] [[0, 0], [1, 1]]).2 0 1,
        decide (0 < getV [[0, 1], [0, 0]] 0 1)
          && decide (0 < getV [[0, 0], [1, 1]] 0 1),
        decide (getV [[0, 1], [0, 0]] 0 1 = 0)
          && decide (getV [[0, 0], [1, 1]] 0 1 = 0)].count true) = 1 :=
  ⟨⟨⟨by decide, fun i => by
      match i with
      | 0 => rfl
      | 1 => rfl
      | n + 2 => rfl⟩, by decide, by decide, by decide, by decide⟩,
    changes_four_way_partition [[0, 1], [0, 0]] [[0, 0], [1, 1]]
      ⟨by decide, fun i => by
        match i with
        | 0 => rfl
        | 1 => rfl
        | n + 2 => rfl⟩ 0 1 (by decide) (by decide) (by decide) (by decide)⟩

/-- C10: for equal-shape inputs, both outputs of `compute_changes` are
    boolean arrays (their Lean type is `List (List Bool)`) of exactly the
    input shape: same number of rows and, row by row, the same length. -/
theorem changes_output_shape (a b : List (List Int)) (hsh : EqShape a b) :
    (compute_changes a b).1.length = a.length
    ∧ (compute_changes a b).2.length = a.length
    ∧ (∀ r, ((compute_changes a b).1.getD r []).length
        = (a.getD r []).length)
    ∧ (∀ r, ((compute_changes a b).2.getD r []).length
        = (a.getD r []).length) := by
  have hlen : ∀ (g : Int → Int → Bool),
      (List.zipWith (fun ra rb => List.zipWith g ra rb) a b).length
        = a.length := by
    intro g
    rw [List.length_zipWith, hsh.1, Nat.min_self]
  have hrow : ∀ (g : Int → Int → Bool) (r : Nat),
      ((List.zipWith (fun ra rb => List.zipWith g ra rb) a b).getD r []).length
        = (a.getD r []).length := by
    intro g r
    by_cases hr : r < a.length
    · have hrb : r < b.length := hsh.1 ▸ hr
      rw [zipWith_getD _ a b r [] [] [] hr hrb, List.length_zipWith,
        hsh.2 r, Nat.min_self]
    · have h1 : a.length ≤ r := Nat.le_of_not_lt hr
      rw [List.getD_eq_default _ _ h1,
        List.getD_eq_default _ _ (le_trans (le_of_eq (hlen g)) h1)]
      rfl
  exact ⟨hlen _, hlen _, hrow _, hrow _⟩

/-- C10 witness. -/
theorem changes_output_shape_witness :
    EqShape [[0, 1], [0, 0]] [[0, 0], [1, 1]]
    ∧ ((compute_changes [[0, 1], [0, 0]] [[0, 0], [1, 1]]).1.length
        = ([[0, 1], [0, 0]] : List (List Int)).length
      ∧ (compute_changes [[0, 1], [0, 0]] [[0, 0], [1, 1]]).2.length
        = ([[0, 1], [0, 0]] : List (List Int)).length
      ∧ (∀ r, ((compute_changes [[0, 1], [0, 0]] [[0, 0], [1, 1]]).1.getD
            r []).length = (([[0, 1], [0, 0]] : List (List Int)).getD r []).length)
      ∧ (∀ r, ((compute_changes [[0, 1], [0, 0]] [[0, 0], [1, 1]]).2.getD
            r []).length
          = (([[0, 1], [0, 0]] : List (List Int)).getD r []).length)) :=
  ⟨⟨by decide, fun i => by
      match i with
      | 0 => rfl
      | 1 => rfl
      | n + 2 => rfl⟩,
    changes_output_shape [[0, 1], [0, 0]] [[0, 0], [1, 1]]
      ⟨by decide, fun i => by
        match i with
        | 0 => rfl
        | 1 => rfl
        | n + 2 => rfl⟩⟩

/-! ### Claim C6 -/

/-- C6: a pair of masks with different pixel-array shapes fails with a
    `ShapeMismatch` error carrying both shapes — no elementwise comparison
    result is produced for it — and the pairs loop processes every
    comparison independently, so the failing pair is skipped while every
    other entry is still processed on its own. -/
theorem shape_mismatch_skips_pair (a b : List (List Int))
    (h : npShape a ≠ npShape b)
    (ps : List (List (List Int) × List (List Int))) (i : Nat) :
    process_pair (a, b) = Except.error ⟨npShape a, npShape b⟩
    ∧ (process_pairs ps)[i]? = (ps[i]?).map process_pair
    ∧ (process_pairs ps).length = ps.length := by
  refine ⟨?_, ?_, ?_⟩
  · simp [process_pair, h]
  · simp [process_pairs]
  · simp [process_pairs]

/-- C6 witness. -/
theorem shape_mismatch_skips_pair_witness :
    npShape [[0]] ≠ npShape [[0], [0]]
    ∧ (process_pair ([[0]], [[0], [0]])
        = Except.error ⟨npShape [[0]], npShape [[0], [0]]⟩
      ∧ (process_pairs [([[1]], [[1]])])[0]?
        = (([([[1]], [[1]])] :
            List (List (List Int) × List (List Int)))[0]?).map process_pair
      ∧ (process_pairs [([[1]], [[1]])]).length
        = ([([[1]], [[1]])] : List (List (List Int) × List (List Int))).length) :=
  ⟨by decide,
    shape_mismatch_skips_pair [[0]] [[0], [0]] (by decide) [([[1]], [[1]])] 0⟩

/-! ### Claim C8 -/

/-- C8: `points_to_dataframe` on the empty point sequence returns a table
    with zero rows and the fixed two-column latitude/longitude schema, and
    serializing it yields exactly the header line and no data rows. -/
theorem empty_points_table_schema :
    points_to_dataframe ([] : List (Int × Int))
        = ⟨["latitude", "longitude"], []⟩
    ∧ (points_to_dataframe ([] : List (Int × Int))).rows.length = 0
    ∧ to_csv (points_to_dataframe ([] : List (Int × Int)))
        = "latitude,longitude\n" := by
  refine ⟨rfl, rfl, ?_⟩
  rfl

end TrashDash
